import Mathlib

/-!
# Verification of the FANUC program analyzer

A shallow embedding of the parsing and analysis pipeline of the repository's
two Python sources, `fanuc_analyzer.py` and `fanuc_flow_analyzer.py`, together
with theorems settling the specification claims.

Strings are modelled as `List Char`; the program files are decoded with
latin-1 (`errors='ignore'`), so every reachable character has a code point
below 256.  Python's regular-expression searches are modelled by dedicated
scanning functions, one per pattern occurring in the source, each reproducing
the leftmost-match and backtracking behaviour of the concrete pattern.
-/

namespace Fanuc

/-- Python `str.isspace` (and the regex class `\s`), restricted to the
latin-1 range produced by the decoder: tab, newline, vertical tab, form feed,
carriage return, the four information-separator controls, space, next line
(U+0085) and no-break space (U+00A0). -/
def pyIsSpace (c : Char) : Bool :=
  c.toNat = 9 ∨ c.toNat = 10 ∨ c.toNat = 11 ∨ c.toNat = 12 ∨ c.toNat = 13 ∨
  c.toNat = 28 ∨ c.toNat = 29 ∨ c.toNat = 30 ∨ c.toNat = 31 ∨ c.toNat = 32 ∨
  c.toNat = 133 ∨ c.toNat = 160

/-- The regex class `\d` on latin-1 text: exactly the ASCII digits. -/
def isDigitCh (c : Char) : Bool :=
  48 ≤ c.toNat ∧ c.toNat ≤ 57

/-- The regex class `\w` (Python `str.isalnum` plus underscore) restricted to
the latin-1 range: ASCII alphanumerics, underscore, the latin-1 ordinal and
numeric signs, micro sign, and the latin-1 letters (excluding the
multiplication and division signs). -/
def isWordCh (c : Char) : Bool :=
  (48 ≤ c.toNat ∧ c.toNat ≤ 57) ∨ (65 ≤ c.toNat ∧ c.toNat ≤ 90) ∨
  (97 ≤ c.toNat ∧ c.toNat ≤ 122) ∨ c.toNat = 95 ∨
  c.toNat = 170 ∨ c.toNat = 178 ∨ c.toNat = 179 ∨ c.toNat = 181 ∨
  c.toNat = 185 ∨ c.toNat = 186 ∨ c.toNat = 188 ∨ c.toNat = 189 ∨
  c.toNat = 190 ∨
  (192 ≤ c.toNat ∧ c.toNat ≤ 255 ∧ c.toNat ≠ 215 ∧ c.toNat ≠ 247)

/-- Python `str.strip()`: remove leading and trailing whitespace. -/
def pyStrip (l : List Char) : List Char :=
  ((l.dropWhile pyIsSpace).reverse.dropWhile pyIsSpace).reverse

/-- Numeric value of a digit run, as computed by Python `int`. -/
def digitsVal (l : List Char) : Nat :=
  l.foldl (fun a c => a * 10 + (c.toNat - 48)) 0

/-- `re.search`: try the anchored matcher `m` at every position of the text,
left to right (including the empty suffix), and return the first success. -/
def reSearch {α : Type} (m : List Char → Option α) : List Char → Option α
  | [] => m []
  | c :: t =>
    match m (c :: t) with
    | some a => some a
    | none => reSearch m t

/-- `re.finditer`: collect every non-overlapping match, left to right.  The
anchored matcher returns the matched value and the total width of the match
(always at least 1 for the patterns in the source), and scanning resumes
right after each match.  The `Nat` fuel bounds the number of scanning steps;
it is instantiated with the text length, which always suffices. -/
def reFindAllAux {α : Type} (m : List Char → Option (α × Nat)) :
    Nat → List Char → List α
  | 0, _ => []
  | _, [] => []
  | n + 1, c :: t =>
    match m (c :: t) with
    | some (a, k) => a :: reFindAllAux m n (t.drop (k - 1))
    | none => reFindAllAux m n t

/-- `re.finditer` at full fuel. -/
def reFindAll {α : Type} (m : List Char → Option (α × Nat)) (l : List Char) :
    List α :=
  reFindAllAux m l.length l

/-- `str.split('\n')`. -/
def splitNl : List Char → List (List Char)
  | [] => [[]]
  | c :: t =>
    if c = '\n' then [] :: splitNl t
    else
      match splitNl t with
      | [] => [[c]]
      | h :: r => (c :: h) :: r

/-- Substring containment, Python's `in` on strings. -/
def containsSeq (pat : List Char) : List Char → Bool
  | [] => pat.isPrefixOf []
  | c :: t => pat.isPrefixOf (c :: t) || containsSeq pat t

/-- Python `set.add` on a set modelled as a duplicate-free list in first
insertion order. -/
def setAdd {α : Type} [DecidableEq α] (l : List α) (x : α) : List α :=
  if x ∈ l then l else l ++ [x]

/-- Index of the first position where `pat` occurs (as a prefix of the
corresponding suffix). -/
def firstIdxOfSeq (pat : List Char) : List Char → Option Nat
  | [] => if pat.isPrefixOf ([] : List Char) then some 0 else none
  | c :: t =>
    if pat.isPrefixOf (c :: t) then some 0
    else (firstIdxOfSeq pat t).map (· + 1)

/-!
## Anchored matchers for the individual regular expressions

Each matcher decides whether its pattern matches at the start of the given
text, exactly as the corresponding Python pattern would after backtracking.
-/

/-- Anchored matcher for `HEAD(\d+)(?::([^\]]+))?\]` where `HEAD` is a literal
ending in `[` — this is the shape of `LBL[...]`, `R[...]`, `DI[...]`,
`DO[...]`, `RI[...]`, `RO[...]` and `PR[...]`.  After the greedy digit run the
optional alias group matches only a colon followed by a nonempty run of
non-`]` characters; otherwise the closing bracket must follow the digits
directly (shorter digit runs cannot help, since they end on a digit).
Returns `((id, alias), width)` with `alias = []` when the group is absent. -/
def matchBracketOp (head : List Char) (l : List Char) :
    Option ((Nat × List Char) × Nat) :=
  if head.isPrefixOf l then
    let rest := l.drop head.length
    let ds := rest.takeWhile isDigitCh
    if ds = [] then none
    else
      match rest.drop ds.length with
      | ']' :: _ => some ((digitsVal ds, []), head.length + ds.length + 1)
      | ':' :: r3 =>
        let al := r3.takeWhile (fun c => ¬ (c = ']'))
        if al = [] then none
        else
          match r3.drop al.length with
          | ']' :: _ =>
            some ((digitsVal ds, al), head.length + ds.length + 1 + al.length + 1)
          | _ => none
      | _ => none
  else none

/-- Anchored matcher for `P\[(\d+)(?::"([^"]+)")?\]` (position definitions):
like the bracket operands but with a quoted alias. -/
def matchPosP (l : List Char) : Option ((Nat × List Char) × Nat) :=
  if ("P[".data).isPrefixOf l then
    let rest := l.drop 2
    let ds := rest.takeWhile isDigitCh
    if ds = [] then none
    else
      match rest.drop ds.length with
      | ']' :: _ => some ((digitsVal ds, []), 2 + ds.length + 1)
      | ':' :: '"' :: r3 =>
        let al := r3.takeWhile (fun c => ¬ (c = '"'))
        if al = [] then none
        else
          match r3.drop al.length with
          | '"' :: ']' :: _ =>
            some ((digitsVal ds, al), 2 + ds.length + 2 + al.length + 2)
          | _ => none
      | _ => none
  else none

/-- Anchored matcher for `JMP\s+LBL\[(\d+)`: the whitespace run is forced to
be maximal (a shorter run would leave a whitespace character where `L` is
required). -/
def matchJMP (l : List Char) : Option Nat :=
  if ("JMP".data).isPrefixOf l then
    let r := l.drop 3
    let w := r.takeWhile pyIsSpace
    if w = [] then none
    else
      let r2 := r.drop w.length
      if ("LBL[".data).isPrefixOf r2 then
        let ds := (r2.drop 4).takeWhile isDigitCh
        if ds = [] then none else some (digitsVal ds)
      else none
  else none

/-- Anchored matcher for `CALL\s+(\w+)`: literal, maximal whitespace run,
then a maximal nonempty word-character run. -/
def matchCALL (l : List Char) : Option (List Char) :=
  if ("CALL".data).isPrefixOf l then
    let r := l.drop 4
    let w := r.takeWhile pyIsSpace
    if w = [] then none
    else
      let wd := (r.drop w.length).takeWhile isWordCh
      if wd = [] then none else some wd
  else none

/-- `re.search(r'\bEND\b', line)` as a Boolean: an occurrence of `END` whose
neighbours (when present) are not word characters.  `prev` is the character
immediately before the current suffix. -/
def hasWordEND (prev : Option Char) : List Char → Bool
  | 'E' :: 'N' :: 'D' :: rest =>
    ((match prev with
      | none => true
      | some c => ¬ isWordCh c) &&
     (match rest with
      | [] => true
      | c :: _ => ¬ isWordCh c)) ||
    hasWordEND (some 'E') ('N' :: 'D' :: rest)
  | c :: rest => hasWordEND (some c) rest
  | [] => false

/-- First index `q ≥ 1` at which `,JMP` occurs, subject to no newline among
the first `q` characters (the lazy `(.+?)` cannot cross a newline). -/
def firstCommaJMP (t : List Char) : Option Nat :=
  match t with
  | [] => none
  | _ :: rest =>
    match firstIdxOfSeq (",JMP".data) rest with
    | none => none
    | some q =>
      if '\n' ∈ t.take (q + 1) then none else some (q + 1)

/-- Backtracking loop of `IF\s+(.+?),JMP` over the length of the whitespace
run: the greedy `\s+` first takes `k` characters, then the lazy group takes
the shortest nonempty stretch ending right before `,JMP`; on failure the
whitespace run shrinks. -/
def guardTry (r : List Char) : Nat → Option (List Char)
  | 0 => none
  | k + 1 =>
    let t := r.drop (k + 1)
    match firstCommaJMP t with
    | some q => some (t.take q)
    | none => guardTry r k

/-- Anchored matcher for `IF\s+(.+?),JMP`. -/
def matchIFguard (l : List Char) : Option (List Char) :=
  if ("IF".data).isPrefixOf l then
    let r := l.drop 2
    let w := (r.takeWhile pyIsSpace).length
    if w = 0 then none else guardTry r w
  else none

/-!
## Section isolation

`re.search(r'/MN(.*?)/(?:POS|END)', content, re.DOTALL)` and its analogues:
at the leftmost occurrence of the opener that is followed by one of the
closers, the lazy group captures the text up to the earliest closer.
Occurrences of the opener with no subsequent closer are skipped, exactly as
`re.search` would continue scanning. -/

/-- Earliest index at which one of the closers matches. -/
def firstCloserIdx (closers : List (List Char)) : List Char → Option Nat
  | [] => if closers.any (fun p => p.isPrefixOf ([] : List Char)) then some 0 else none
  | c :: t =>
    if closers.any (fun p => p.isPrefixOf (c :: t)) then some 0
    else (firstCloserIdx closers t).map (· + 1)

/-- Anchored matcher for an opener/closers pair. -/
def matchSection (opener : List Char) (closers : List (List Char))
    (l : List Char) : Option (List Char) :=
  if opener.isPrefixOf l then
    let r := l.drop opener.length
    match firstCloserIdx closers r with
    | some q => some (r.take q)
    | none => none
  else none

/-- `re.search(opener ++ (.*?) ++ closers, content, re.DOTALL)`. -/
def extractSection (opener : List Char) (closers : List (List Char))
    (content : List Char) : Option (List Char) :=
  reSearch (matchSection opener closers) content

/-- Anchored matcher for `/PROG\s+(\w+)`. -/
def matchPROG (l : List Char) : Option (List Char) :=
  if ("/PROG".data).isPrefixOf l then
    let r := l.drop 5
    let w := r.takeWhile pyIsSpace
    if w = [] then none
    else
      let wd := (r.drop w.length).takeWhile isWordCh
      if wd = [] then none else some wd
  else none

/-!
## Attribute patterns (`/ATTR` section)
-/

/-- Anchored matcher for `KEY\s*=\s*([^;]+);`.  After `=`, with `w` leading
whitespace characters and the first `;` at index `s`, the greedy/backtracking
interplay yields the group `t[min w (s-1) .. s)`; there is no match when the
`;` is missing or immediately follows `=`. -/
def matchEqSemi (key : List Char) (l : List Char) : Option (List Char) :=
  if key.isPrefixOf l then
    let r := l.drop key.length
    let w1 := (r.takeWhile pyIsSpace).length
    match r.drop w1 with
    | '=' :: t =>
      let w := (t.takeWhile pyIsSpace).length
      match firstIdxOfSeq (";".data) t with
      | none => none
      | some s =>
        if s = 0 then none
        else some ((t.drop (min w (s - 1))).take (s - min w (s - 1)))
    | _ => none
  else none

/-- Anchored matcher for `KEY\s*=\s*"([^"]+)"`: maximal whitespace, then the
opening quote must follow directly. -/
def matchEqQuoted (key : List Char) (l : List Char) : Option (List Char) :=
  if key.isPrefixOf l then
    let r := l.drop key.length
    let w1 := (r.takeWhile pyIsSpace).length
    match r.drop w1 with
    | '=' :: t =>
      match t.drop (t.takeWhile pyIsSpace).length with
      | '"' :: t2 =>
        let g := t2.takeWhile (fun c => ¬ (c = '"'))
        if g = [] then none
        else
          match t2.drop g.length with
          | '"' :: _ => some g
          | _ => none
      | _ => none
    | _ => none
  else none

/-- Anchored matcher for `KEY\s*=\s*(\d+)`. -/
def matchEqNum (key : List Char) (l : List Char) : Option (List Char) :=
  if key.isPrefixOf l then
    let r := l.drop key.length
    let w1 := (r.takeWhile pyIsSpace).length
    match r.drop w1 with
    | '=' :: t =>
      let ds := (t.drop (t.takeWhile pyIsSpace).length).takeWhile isDigitCh
      if ds = [] then none else some ds
    | _ => none
  else none

/-- Anchored matcher for `KEY\s*=\s*DATE\s+([\d-]+)\s+TIME\s+([\d:]+)`:
every run is forced maximal because the character classes at each boundary
are disjoint. -/
def matchEqDate (key : List Char) (l : List Char) : Option (List Char × List Char) :=
  if key.isPrefixOf l then
    let r := l.drop key.length
    let w1 := (r.takeWhile pyIsSpace).length
    match r.drop w1 with
    | '=' :: t =>
      let t1 := t.drop (t.takeWhile pyIsSpace).length
      if ¬ ("DATE".data).isPrefixOf t1 then none
      else
        let t2 := t1.drop 4
        let w2 := t2.takeWhile pyIsSpace
        if w2 = [] then none
        else
          let d := (t2.drop w2.length).takeWhile (fun c => isDigitCh c || c = '-')
          if d = [] then none
          else
            let t3 := (t2.drop w2.length).drop d.length
            let w3 := t3.takeWhile pyIsSpace
            if w3 = [] then none
            else
              let t4 := t3.drop w3.length
              if ¬ ("TIME".data).isPrefixOf t4 then none
              else
                let t5 := t4.drop 4
                let w4 := t5.takeWhile pyIsSpace
                if w4 = [] then none
                else
                  let tm := (t5.drop w4.length).takeWhile (fun c => isDigitCh c || c = ':')
                  if tm = [] then none else some (d, tm)
    | _ => none
  else none

/-!
## The program model (`class FANUCProgram`)

Python `set`s of tuples are modelled as duplicate-free lists in first
insertion order (membership and cardinality agree with the set); `dict`s as
association lists in key insertion order.
-/

structure FANUCProgram where
  filename : String
  name : String
  attributes : List (String × String)
  labels : List (Nat × String × Nat)
  positions : List (Nat × String)
  registers_used : List (Nat × String)
  digital_inputs : List (Nat × String)
  digital_outputs : List (Nat × String)
  register_inputs : List (Nat × String)
  register_outputs : List (Nat × String)
  calls : List (String × Nat)
  jumps : List (Nat × Nat)
  code_lines : List String
  position_registers : List (Nat × String)
  errors : List (Nat × String)
  program_type : String
  product_code : Option String
  has_iml : Bool
  statistics : List (String × Nat)
deriving Repr, DecidableEq

/-- `FANUCProgram.__init__`. -/
def initProgram (filename : String) : FANUCProgram :=
  { filename := filename
    name := ""
    attributes := []
    labels := []
    positions := []
    registers_used := []
    digital_inputs := []
    digital_outputs := []
    register_inputs := []
    register_outputs := []
    calls := []
    jumps := []
    code_lines := []
    position_registers := []
    errors := []
    program_type := "unknown"
    product_code := none
    has_iml := false
    statistics := [] }

/-- `re.match(r'A_1PA\d{3}', name)`: anchored at the start only, so the name
must begin with `A_1PA` followed by three ASCII digits. -/
def mainNamePat (name : List Char) : Bool :=
  match name with
  | 'A' :: '_' :: '1' :: 'P' :: 'A' :: d1 :: d2 :: d3 :: _ =>
    isDigitCh d1 && isDigitCh d2 && isDigitCh d3
  | _ => false

/-- Python `str.upper()` of one latin-1 character (as a character list, since
`ß` uppercases to `SS`). -/
def pyUpperChar (c : Char) : List Char :=
  if 97 ≤ c.toNat ∧ c.toNat ≤ 122 then [Char.ofNat (c.toNat - 32)]
  else if c.toNat = 223 then ['S', 'S']
  else if c.toNat = 181 then [Char.ofNat 924]
  else if c.toNat = 255 then [Char.ofNat 376]
  else if 224 ≤ c.toNat ∧ c.toNat ≤ 254 ∧ c.toNat ≠ 247 then
    [Char.ofNat (c.toNat - 32)]
  else [c]

/-- `'IML' in line.upper() or 'FOLIE' in line.upper()`. -/
def hasIMLmarker (line : List Char) : Bool :=
  let up := line.foldr (fun c acc => pyUpperChar c ++ acc) []
  containsSeq ("IML".data) up || containsSeq ("FOLIE".data) up

/-- `re.search(r'_(384|096|1536CC|005|017|140|180)', name)`, anchored: a `_`
followed by one of the product codes, alternatives tried in order. -/
def matchProductAt (l : List Char) : Option String :=
  match l with
  | '_' :: r =>
    ["384", "096", "1536CC", "005", "017", "140", "180"].findSome?
      (fun s => if (s.data).isPrefixOf r then some s else none)
  | _ => none

/-- `FANUCProgram.classify_program`. -/
def classifyProgram (p : FANUCProgram) : FANUCProgram :=
  let nm := p.name.data
  if mainNamePat nm then
    { p with
      program_type := "main"
      has_iml := p.code_lines.any (fun line => hasIMLmarker line.data) }
  else if ["KER1_", "KER2_", "AFLG_", "PRINTEN", "BUF_"].any
      (fun pre => containsSeq pre.data nm) then
    let p1 := { p with program_type := "subprogram" }
    match reSearch matchProductAt nm with
    | some c => { p1 with product_code := some c }
    | none => p1
  else if ["HOMING", "HOMEN", "HOMEN1", "TEKST", "FOLIE", "DUMPEN", "RUST"].any
      (fun u => u = p.name) then
    { p with program_type := "utility" }
  else if ("ERR".data).isPrefixOf nm ∨ p.name = "LOGBOOK" ∨ p.name = "PMC" then
    { p with program_type := "system" }
  else
    { p with program_type := "other" }

/-- `FANUCProgram.calculate_statistics`. -/
def calculateStatistics (p : FANUCProgram) : FANUCProgram :=
  { p with
    statistics :=
      [("total_lines", p.code_lines.length),
       ("label_count", p.labels.length),
       ("call_count", p.calls.length),
       ("jump_count", p.jumps.length),
       ("position_count", p.positions.length),
       ("register_count", p.registers_used.length),
       ("di_count", p.digital_inputs.length),
       ("do_count", p.digital_outputs.length),
       ("ri_count", p.register_inputs.length),
       ("ro_count", p.register_outputs.length),
       ("error_labels", p.errors.length)] }

/-!
## `FANUCParser` section parsers
-/

/-- `FANUCParser._parse_header`. -/
def parseHeader (p : FANUCProgram) (content : List Char) : FANUCProgram :=
  match reSearch matchPROG content with
  | some nm => { p with name := String.mk nm }
  | none => p

/-- One `(key, matcher)` step of `_parse_attributes`; the date keys combine
their two groups, the others are stripped. -/
def attrValue (key : List Char) (attr_text : List Char) : Option (List Char) :=
  if key = "OWNER".data ∨ key = "PROTECT".data then
    (reSearch (matchEqSemi key) attr_text).map pyStrip
  else if key = "COMMENT".data then
    (reSearch (matchEqQuoted key) attr_text).map pyStrip
  else if key = "CREATE".data ∨ key = "MODIFIED".data then
    (reSearch (matchEqDate key) attr_text).map (fun g => g.1 ++ (" ".data) ++ g.2)
  else
    (reSearch (matchEqNum key) attr_text).map pyStrip

/-- The key order of the `patterns` dict in `_parse_attributes`. -/
def attrKeys : List String :=
  ["OWNER", "COMMENT", "PROG_SIZE", "CREATE", "MODIFIED",
   "LINE_COUNT", "MEMORY_SIZE", "PROTECT"]

/-- `FANUCParser._parse_attributes`: locate the `/ATTR` section, then record
each matching key in pattern order. -/
def parseAttributes (p : FANUCProgram) (content : List Char) : FANUCProgram :=
  match extractSection ("/ATTR".data) [("/APPL".data), ("/MN".data)] content with
  | none => p
  | some attr_text =>
    { p with
      attributes :=
        p.attributes ++
          attrKeys.foldr
            (fun key acc =>
              match attrValue key.data attr_text with
              | some v => (key, String.mk v) :: acc
              | none => acc)
            [] }

/-- The `label_match` search of `_parse_code` (and of the flow analyzer's
`parse_program`, which uses the identical pattern). -/
def labelSearch (line : List Char) : Option (Nat × List Char) :=
  reSearch (fun l => (matchBracketOp ("LBL[".data) l).map Prod.fst) line

/-- Entries appended to `program.labels` by one line. -/
def lblDelta (line : List Char) (i : Nat) : List (Nat × String × Nat) :=
  match labelSearch line with
  | some (n, nm) => [(n, String.mk nm, i)]
  | none => []

/-- Entries appended to `program.errors` by one line: the parsed label when
its id lies in the error window `[500, 800)`. -/
def errDelta (line : List Char) : List (Nat × String) :=
  match labelSearch line with
  | some (n, nm) =>
    if 500 ≤ n ∧ n < 800 then [(n, String.mk nm)] else []
  | none => []

/-- Entries appended to `program.jumps` by one line. -/
def jmpDelta (line : List Char) (i : Nat) : List (Nat × Nat) :=
  match reSearch matchJMP line with
  | some t => [(t, i)]
  | none => []

/-- Entries appended to `program.calls` by one line. -/
def callDelta (line : List Char) (i : Nat) : List (String × Nat) :=
  match reSearch matchCALL line with
  | some c => [(String.mk c, i)]
  | none => []

/-- The `finditer` loop adding every bracketed operand of one kind to the
observed set (also the `position_registers` loop, whose explicit
membership test is exactly set insertion on the list). -/
def addOps (s : List (Nat × String)) (head : List Char) (line : List Char) :
    List (Nat × String) :=
  (reFindAll (matchBracketOp head) line).foldl
    (fun s' (x : Nat × List Char) => setAdd s' (x.1, String.mk x.2)) s

/-- The body of the `_parse_code` loop for one already stripped, non-skipped
line at index `i`: the sequence of appends the loop performs, written as one
simultaneous record update (each field is touched by at most one append). -/
def parseCodeBody (p : FANUCProgram) (i : Nat) (line : List Char) : FANUCProgram :=
  { p with
    code_lines := p.code_lines ++ [String.mk line]
    labels := p.labels ++ lblDelta line i
    errors := p.errors ++ errDelta line
    jumps := p.jumps ++ jmpDelta line i
    calls := p.calls ++ callDelta line i
    registers_used := addOps p.registers_used ("R[".data) line
    digital_inputs := addOps p.digital_inputs ("DI[".data) line
    digital_outputs := addOps p.digital_outputs ("DO[".data) line
    register_inputs := addOps p.register_inputs ("RI[".data) line
    register_outputs := addOps p.register_outputs ("RO[".data) line
    position_registers := addOps p.position_registers ("PR[".data) line }

/-- The shared skip test of both per-line loops: strip the line; an empty
result or a leading comment marker `!` means the line is skipped
(`continue`), otherwise the stripped line is processed. -/
def lineClass (raw : List Char) : Option (List Char) :=
  match pyStrip raw with
  | [] => none
  | '!' :: _ => none
  | line => some line

/-- One iteration of the `_parse_code` loop: strip, skip empty and comment
lines, else run the body. -/
def parseCodeLine (p : FANUCProgram) (i : Nat) (raw : List Char) : FANUCProgram :=
  match lineClass raw with
  | none => p
  | some line => parseCodeBody p i line

/-- `FANUCParser._parse_code`: locate the `/MN` section and fold the loop
over its newline-split lines, enumerated from 0. -/
def parseCode (p : FANUCProgram) (content : List Char) : FANUCProgram :=
  match extractSection ("/MN".data) [("/POS".data), ("/END".data)] content with
  | none => p
  | some code_text =>
    ((splitNl code_text).enum).foldl (fun q il => parseCodeLine q il.1 il.2) p

/-- `FANUCParser._parse_positions`. -/
def parsePositions (p : FANUCProgram) (content : List Char) : FANUCProgram :=
  match extractSection ("/POS".data) [("/END".data)] content with
  | none => p
  | some pos_text =>
    { p with
      positions :=
        p.positions ++
          (reFindAll matchPosP pos_text).map (fun (x : Nat × List Char) => (x.1, String.mk x.2)) }

/-- `FANUCParser.parse_file` on a decoded byte buffer: parse the four
sections, classify, compute statistics. -/
def parseFile (filename : String) (content : String) : FANUCProgram :=
  let cs := content.data
  calculateStatistics
    (classifyProgram
      (parsePositions (parseCode (parseAttributes (parseHeader (initProgram filename) cs) cs) cs) cs))

/-!
## The flow analyzer (`fanuc_flow_analyzer.py`)

`current_node` aliases the entry of `flow_nodes` at its label id (a node is
stored under its id in the same statement that makes it current, and both are
replaced together on redefinition), so the mutable reference is modelled by
the current label id and keyed updates of the association list.
-/

structure FlowNode where
  label_num : Nat
  label_name : String
  instructions : List String
  successors : List Nat
  conditions : List String
deriving Repr, DecidableEq

structure FlowState where
  flow_nodes : List (Nat × FlowNode)
  current : Option Nat
  error_nodes : List Nat
  main_cycle_labels : List Nat
deriving Repr, DecidableEq

/-- `FANUCFlowAnalyzer.__init__` (the flow-graph fields). -/
def initFlowState : FlowState :=
  { flow_nodes := [], current := none, error_nodes := [], main_cycle_labels := [] }

/-- `dict` assignment `flow_nodes[k] = v`: replace the first entry with key
`k` in place, else append. -/
def mapSet (m : List (Nat × FlowNode)) (k : Nat) (v : FlowNode) :
    List (Nat × FlowNode) :=
  match m with
  | [] => [(k, v)]
  | (k', v') :: rest =>
    if k' = k then (k, v) :: rest else (k', v') :: mapSet rest k v

/-- Mutation of the node stored under key `k`. -/
def updateNode (m : List (Nat × FlowNode)) (k : Nat) (f : FlowNode → FlowNode) :
    List (Nat × FlowNode) :=
  match m with
  | [] => []
  | (k', v) :: rest =>
    if k' = k then (k', f v) :: rest else (k', v) :: updateNode rest k f

/-- `dict` lookup. -/
def nodesLookup (m : List (Nat × FlowNode)) (n : Nat) : Option FlowNode :=
  match m with
  | [] => none
  | (k, v) :: rest => if k = n then some v else nodesLookup rest n

/-- Label-definition branch of the `parse_program` loop: build a fresh node,
store it under its id, make it current, and record special ids. -/
def flowApplyLabel (st : FlowState) (n : Nat) (nm : String) : FlowState :=
  let node : FlowNode :=
    { label_num := n, label_name := nm, instructions := [],
      successors := [], conditions := [] }
  let st' :=
    { st with flow_nodes := mapSet st.flow_nodes n node, current := some n }
  if n = 10 ∨ n = 20 then
    { st' with main_cycle_labels := st'.main_cycle_labels ++ [n] }
  else if 500 ≤ n ∧ n < 800 then
    { st' with error_nodes := st'.error_nodes ++ [n] }
  else st'

/-- The sequence of mutations `parse_program` performs on the current node
for a non-label line: append the instruction; on a jump, append the successor
and, when the line is a conditional jump, its guard text. -/
def instrXform (line : List Char) (nd : FlowNode) : FlowNode :=
  let nd := { nd with instructions := nd.instructions ++ [String.mk line] }
  match reSearch matchJMP line with
  | some t =>
    let nd := { nd with successors := nd.successors ++ [t] }
    match reSearch matchIFguard line with
    | some g => { nd with conditions := nd.conditions ++ [String.mk g] }
    | none => nd
  | none => nd

/-- Non-label branch of the `parse_program` loop: with no current node the
line is dropped; otherwise the current node is mutated and an `END` marker
closes it. -/
def flowApplyInstr (st : FlowState) (line : List Char) : FlowState :=
  match st.current with
  | none => st
  | some c =>
    let st' := { st with flow_nodes := updateNode st.flow_nodes c (instrXform line) }
    if hasWordEND none line then { st' with current := none } else st'

/-- One iteration of the `parse_program` loop. -/
def flowLineStep (st : FlowState) (raw : List Char) : FlowState :=
  match lineClass raw with
  | none => st
  | some line =>
    match labelSearch line with
    | some (n, nm) => flowApplyLabel st n (String.mk (pyStrip nm))
    | none => flowApplyInstr st line

/-- The `parse_program` loop over a list of raw lines. -/
def buildFlowLines (lines : List (List Char)) : FlowState :=
  lines.foldl flowLineStep initFlowState

/-- `FANUCFlowAnalyzer.parse_program` on decoded content: extract the `/MN`
section and fold the loop over its lines. -/
def parseProgramFlow (content : String) : FlowState :=
  match extractSection ("/MN".data) [("/POS".data), ("/END".data)] content.data with
  | none => initFlowState
  | some code_text => buildFlowLines (splitNl code_text)

/-- The label definition a raw line contributes, if any: `none` for skipped
(empty/comment) lines and for lines on which the label pattern fails. -/
def flowLabelOf (raw : List Char) : Option (Nat × List Char) :=
  match lineClass raw with
  | none => none
  | some line => labelSearch line

/-- Whether a raw line takes the label branch with id `n`. -/
def definesId (raw : List Char) (n : Nat) : Bool :=
  match flowLabelOf raw with
  | some (m, _) => m = n
  | none => false

/-!
## Cross-program aggregation (`class FANUCAnalyzer`)
-/

/-- `defaultdict(set)` insertion `register_map[n].add(a)` on an association
list keyed by register id. -/
def addAlias (m : List (Nat × List String)) (n : Nat) (a : String) :
    List (Nat × List String) :=
  match m with
  | [] => [(n, [a])]
  | (k, s) :: rest =>
    if k = n then (k, setAdd s a) :: rest else (k, s) :: addAlias rest n a

/-- Alias set recorded for an id (empty when the id is absent). -/
def aliasesAt (m : List (Nat × List String)) (n : Nat) : List String :=
  match m with
  | [] => []
  | (k, s) :: rest => if k = n then s else aliasesAt rest n

/-- `FANUCAnalyzer._build_register_map`: fold every program's observed
`R[...]` references, keeping only named ones. -/
def buildRegisterMap (progs : List FANUCProgram) : List (Nat × List String) :=
  progs.foldl
    (fun m p =>
      p.registers_used.foldl
        (fun m' r => if ¬ (r.2 = "") then addAlias m' r.1 r.2 else m')
        m)
    []

/-- Insertion into a lexicographically sorted list of strings. -/
def insertSorted (x : String) : List String → List String
  | [] => [x]
  | y :: t => if x ≤ y then x :: y :: t else y :: insertSorted x t

/-- `sorted(set(xs))` for strings: deduplicate, then sort lexicographically
by code points. -/
def sortedDedup (xs : List String) : List String :=
  (xs.foldl (fun acc x => setAdd acc x) []).foldr insertSorted []

/-- `dict` membership/lookup for the call graph. -/
def graphCallees (g : List (String × List String)) (n : String) :
    Option (List String) :=
  match g with
  | [] => none
  | (k, v) :: rest => if k = n then some v else graphCallees rest n

/-- Every name occurring in the call graph (keys and callees); the visited
set can only ever hold these names plus the root. -/
def gUniv (g : List (String × List String)) : List String :=
  g.foldr (fun kv acc => kv.1 :: (kv.2 ++ acc)) []

/-- `FANUCAnalyzer._write_call_tree`: emit `(name, indent)` pairs depth
first, threading the visited set through the `for called in sorted(set(...))`
loop; a visited name returns immediately, an unvisited one is first added to
the visited set (this is the "expansion" of the name).  The fuel argument
bounds the recursion depth; `(gUniv g).length + 1` always suffices (each
non-trivial call permanently adds a graph name to the visited set), which is
exactly the termination argument for the unbounded Python recursion. -/
def callTreeF (fuel : Nat) (g : List (String × List String)) (name : String)
    (indent : Nat) (visited : List String) :
    Option (List (String × Nat) × List String) :=
  match fuel with
  | 0 => none
  | f + 1 =>
    if name ∈ visited then some ([], visited)
    else
      let visited' := name :: visited
      match graphCallees g name with
      | none => some ([], visited')
      | some callees =>
        (sortedDedup callees).foldl
          (fun acc c =>
            match acc with
            | none => none
            | some (out, vis) =>
              match callTreeF f g c (indent + 1) vis with
              | none => none
              | some (out1, vis1) => some (out ++ (c, indent) :: out1, vis1))
          (some ([], visited'))

/-- Number of call-graph names not yet in the visited set — the quantity the
traversal strictly decreases at every expansion. -/
def unvisited (g : List (String × List String)) (vis : List String) : Nat :=
  ((gUniv g).filter (fun x => decide (¬ x ∈ vis))).length

/-- The tuple of all fields `_parse_code` writes, used to show the other
phases leave them alone. -/
def codeView (p : FANUCProgram) :
    List String × List (Nat × String × Nat) × List (Nat × String) ×
    List (Nat × Nat) × List (String × Nat) × List (Nat × String) ×
    List (Nat × String) × List (Nat × String) × List (Nat × String) ×
    List (Nat × String) × List (Nat × String) :=
  (p.code_lines, p.labels, p.errors, p.jumps, p.calls, p.registers_used,
   p.digital_inputs, p.digital_outputs, p.register_inputs,
   p.register_outputs, p.position_registers)

/-- The classification tag as a function of the program name alone — the
branch structure of `classify_program` restricted to its `program_type`
assignments (the `has_iml` and `product_code` side effects do not feed back
into the chosen tag). -/
def programTypeOf (name : String) : String :=
  if mainNamePat name.data then "main"
  else if ["KER1_", "KER2_", "AFLG_", "PRINTEN", "BUF_"].any
      (fun pre => containsSeq pre.data name.data) then "subprogram"
  else if ["HOMING", "HOMEN", "HOMEN1", "TEKST", "FOLIE", "DUMPEN", "RUST"].any
      (fun u => u = name) then "utility"
  else if ("ERR".data).isPrefixOf name.data ∨ name = "LOGBOOK" ∨ name = "PMC" then
    "system"
  else "other"

/-- The C2 scenario: a unit whose main-code lines are exactly `LBL[10]`,
`CALL SUB1`, `JMP LBL[20]`, `LBL[20]`, `END`. -/
def sampleC2 : String :=
  "/PROG TEST\n/MN\nLBL[10]\nCALL SUB1\nJMP LBL[20]\nLBL[20]\nEND\n/END"

/-- A unit whose main code defines label 10 and jumps to the undefined
label 20. -/
def sampleC1 : String :=
  "/PROG TEST\n/MN\nLBL[10]\nJMP LBL[20]\n/END"

/-- A unit observing the operand text `R[12:SpeedRef]`. -/
def sampleC6A : String :=
  "/PROG PA\n/MN\nR[12:SpeedRef]=1\n/END"

/-- A unit observing the operand text `R[12:SpeedAlt]`. -/
def sampleC6B : String :=
  "/PROG PB\n/MN\nR[12:SpeedAlt]=2\n/END"

/-!
## Generic fold lemmas
-/

theorem foldl_proj {σ β γ : Type _} (f : σ → β → σ) (proj : σ → γ)
    (h : ∀ s b, proj (f s b) = proj s) :
    ∀ (l : List β) (s : σ), proj (l.foldl f s) = proj s := by
  intro l
  induction l with
  | nil => intro s; rfl
  | cons b t ih =>
    intro s
    simp only [List.foldl_cons]
    rw [ih, h]

theorem foldl_inv {σ β : Type _} (f : σ → β → σ) (P : σ → Prop)
    (h : ∀ s b, P s → P (f s b)) :
    ∀ (l : List β) (s : σ), P s → P (l.foldl f s) := by
  intro l
  induction l with
  | nil => intro s hs; exact hs
  | cons b t ih =>
    intro s hs
    simp only [List.foldl_cons]
    exact ih _ (h s b hs)

/-!
## Phase lemmas: which fields each phase of `parse_file` touches
-/

theorem parseHeader_codeView (p : FANUCProgram) (cs : List Char) :
    codeView (parseHeader p cs) = codeView p := by
  unfold parseHeader
  cases reSearch matchPROG cs <;> rfl

theorem parseAttributes_codeView (p : FANUCProgram) (cs : List Char) :
    codeView (parseAttributes p cs) = codeView p := by
  unfold parseAttributes
  cases extractSection ("/ATTR".data) [("/APPL".data), ("/MN".data)] cs <;> rfl

theorem parsePositions_codeView (p : FANUCProgram) (cs : List Char) :
    codeView (parsePositions p cs) = codeView p := by
  unfold parsePositions
  cases extractSection ("/POS".data) [("/END".data)] cs <;> rfl

theorem classifyProgram_codeView (p : FANUCProgram) :
    codeView (classifyProgram p) = codeView p := by
  unfold classifyProgram
  dsimp only
  repeat' split
  all_goals rfl

theorem calculateStatistics_codeView (p : FANUCProgram) :
    codeView (calculateStatistics p) = codeView p := rfl

theorem parseCodeLine_attributes (p : FANUCProgram) (i : Nat) (raw : List Char) :
    (parseCodeLine p i raw).attributes = p.attributes := by
  unfold parseCodeLine
  split <;> rfl

theorem parseCodeLine_positions (p : FANUCProgram) (i : Nat) (raw : List Char) :
    (parseCodeLine p i raw).positions = p.positions := by
  unfold parseCodeLine
  split <;> rfl

theorem parseCode_attributes (p : FANUCProgram) (cs : List Char) :
    (parseCode p cs).attributes = p.attributes := by
  unfold parseCode
  split
  · rfl
  · exact foldl_proj _ (fun q => q.attributes)
      (fun q (il : Nat × List Char) => parseCodeLine_attributes q il.1 il.2) _ p

theorem parseCode_positions (p : FANUCProgram) (cs : List Char) :
    (parseCode p cs).positions = p.positions := by
  unfold parseCode
  split
  · rfl
  · exact foldl_proj _ (fun q => q.positions)
      (fun q (il : Nat × List Char) => parseCodeLine_positions q il.1 il.2) _ p

theorem parseHeader_attributes (p : FANUCProgram) (cs : List Char) :
    (parseHeader p cs).attributes = p.attributes := by
  unfold parseHeader
  cases reSearch matchPROG cs <;> rfl

theorem parseHeader_positions (p : FANUCProgram) (cs : List Char) :
    (parseHeader p cs).positions = p.positions := by
  unfold parseHeader
  cases reSearch matchPROG cs <;> rfl

theorem parseAttributes_positions (p : FANUCProgram) (cs : List Char) :
    (parseAttributes p cs).positions = p.positions := by
  unfold parseAttributes
  cases extractSection ("/ATTR".data) [("/APPL".data), ("/MN".data)] cs <;> rfl

theorem parsePositions_attributes (p : FANUCProgram) (cs : List Char) :
    (parsePositions p cs).attributes = p.attributes := by
  unfold parsePositions
  cases extractSection ("/POS".data) [("/END".data)] cs <;> rfl

theorem classifyProgram_attributes (p : FANUCProgram) :
    (classifyProgram p).attributes = p.attributes := by
  unfold classifyProgram
  dsimp only
  repeat' split
  all_goals rfl

theorem classifyProgram_positions (p : FANUCProgram) :
    (classifyProgram p).positions = p.positions := by
  unfold classifyProgram
  dsimp only
  repeat' split
  all_goals rfl

theorem calculateStatistics_attributes (p : FANUCProgram) :
    (calculateStatistics p).attributes = p.attributes := rfl

theorem calculateStatistics_positions (p : FANUCProgram) :
    (calculateStatistics p).positions = p.positions := rfl

theorem classifyProgram_type (p : FANUCProgram) :
    (classifyProgram p).program_type = programTypeOf p.name := by
  unfold classifyProgram programTypeOf
  dsimp only
  repeat' split
  all_goals rfl

theorem parseCode_of_none (p : FANUCProgram) (cs : List Char)
    (h : extractSection ("/MN".data) [("/POS".data), ("/END".data)] cs = none) :
    parseCode p cs = p := by
  unfold parseCode
  rw [h]

theorem parseAttributes_of_none (p : FANUCProgram) (cs : List Char)
    (h : extractSection ("/ATTR".data) [("/APPL".data), ("/MN".data)] cs = none) :
    parseAttributes p cs = p := by
  unfold parseAttributes
  rw [h]

theorem parsePositions_of_none (p : FANUCProgram) (cs : List Char)
    (h : extractSection ("/POS".data) [("/END".data)] cs = none) :
    parsePositions p cs = p := by
  unfold parsePositions
  rw [h]

/-!
## Claim C10 — blank and comment lines contribute nothing
-/

/-- **C10**: a main-code line that strips to the empty string or whose
stripped form begins with the comment marker `!` is skipped by both per-line
loops: it is not appended to `code_lines` (hence not counted in the
total-line statistic, which is the length of `code_lines`) and contributes no
label, jump, call, operand reference or flow-block instruction — the parse
state is left exactly unchanged. -/
theorem lineClass_eq_none (raw : List Char)
    (h : pyStrip raw = [] ∨ (pyStrip raw).head? = some '!') :
    lineClass raw = none := by
  rcases h with h | h
  · unfold lineClass; rw [h]
  · obtain ⟨t, ht⟩ : ∃ t, pyStrip raw = '!' :: t := by
      cases hs : pyStrip raw with
      | nil => rw [hs] at h; simp at h
      | cons c t =>
        rw [hs] at h
        simp only [List.head?] at h
        exact ⟨t, by rw [Option.some.injEq] at h; rw [h]⟩
    unfold lineClass; rw [ht]; rfl

theorem c10_skip_lines_no_effect (p : FANUCProgram) (i : Nat)
    (raw : List Char) (st : FlowState)
    (h : pyStrip raw = [] ∨ (pyStrip raw).head? = some '!') :
    parseCodeLine p i raw = p ∧ flowLineStep st raw = st := by
  have hn := lineClass_eq_none raw h
  constructor
  · unfold parseCodeLine; rw [hn]
  · unfold flowLineStep; rw [hn]

/-- Witness for C10: a whitespace-only line and a comment line, applied to
the freshly initialised parser states. -/
theorem c10_skip_lines_no_effect_witness :
    (parseCodeLine (initProgram ("f")) 0 ("  ".data) = initProgram ("f") ∧
      flowLineStep initFlowState ("  ".data) = initFlowState) ∧
    (parseCodeLine (initProgram ("f")) 3 (" ! comment".data) = initProgram ("f") ∧
      flowLineStep initFlowState (" ! comment".data) = initFlowState) :=
  ⟨c10_skip_lines_no_effect _ 0 _ _ (Or.inl (by decide)),
   c10_skip_lines_no_effect _ 3 _ _ (Or.inr (by decide))⟩

/-!
## Claim C9 — determinism of the derived statistics
-/

/-- **C9**: two runs of the per-unit parse on identical byte content (and the
same logical name) produce identical derived statistics: the statistics
record — total lines, label count, call count, jump count, position count,
per-kind operand counts and error-label count — is a pure function of the
content, so equal inputs give equal values for every field. -/
theorem c9_parse_deterministic (fn c c' : String) (h : c = c') :
    (parseFile fn c).statistics = (parseFile fn c').statistics := by
  rw [h]

/-- Witness for C9 at a concrete unit. -/
theorem c9_parse_deterministic_witness :
    (parseFile ("f") sampleC2).statistics = (parseFile ("f") sampleC2).statistics :=
  c9_parse_deterministic ("f") sampleC2 sampleC2 rfl

/-!
## Claim C1 — label extraction also records jump targets (code bug)
-/

/-- **C1** (behaviour at the failing input): the claim states that the ids in
`program.labels` are exactly the label-definition markers of the main-code
region, ids appearing only as jump targets excluded.  The code violates this:
the pattern `LBL\[(\d+)...\]` also matches inside a `JMP LBL[20]` line, so
for a unit whose main code is `LBL[10]`, `JMP LBL[20]` the parse records the
label ids 10 **and** 20 (and the jump), although 20 occurs only as a jump
target. -/
theorem c1_jump_target_recorded_as_label :
    (parseFile ("t") sampleC1).labels = [(10, "", 1), (20, "", 2)] ∧
    (parseFile ("t") sampleC1).jumps = [(20, 2)] := by
  constructor <;> decide

/-!
## Claim C2 — the five-line scenario (code bug)
-/

/-- **C2** (behaviour at the failing input): on main-code lines `LBL[10]`,
`CALL SUB1`, `JMP LBL[20]`, `LBL[20]`, `END` the flow-graph build does
produce exactly the two blocks 10 and 20, the parse does record exactly one
call to `SUB1`, and block 20 has no successors and is closed by the `END`
marker — but block 10 has **no** successor edge: the label pattern matches
inside the `JMP LBL[20]` line, which is therefore consumed as a label
definition (opening block 20 early) instead of adding the edge 10 → 20 the
claim requires. -/
theorem c2_scenario_flow_graph_evaluation :
    (parseProgramFlow sampleC2).flow_nodes.map Prod.fst = [10, 20] ∧
    nodesLookup (parseProgramFlow sampleC2).flow_nodes 10 =
      some { label_num := 10, label_name := "", instructions := ["CALL SUB1"],
             successors := [], conditions := [] } ∧
    nodesLookup (parseProgramFlow sampleC2).flow_nodes 20 =
      some { label_num := 20, label_name := "", instructions := ["END"],
             successors := [], conditions := [] } ∧
    (parseProgramFlow sampleC2).current = none ∧
    (parseFile ("t") sampleC2).calls = [("SUB1", 2)] := by
  refine ⟨?_, ?_, ?_, ?_, ?_⟩ <;> decide

/-!
## Claim C5 — classification by name
-/

/-- **C5**: a program whose name matches the anchored main-program pattern
(`A_1PA` followed by three digits) is classified `main` — in particular the
exact name `A_1PA001`; the name `A_1PA00`, missing one required trailing
digit, is not `main` (it falls through every rule to the `other` fallback);
classification always assigns exactly one of the five tags, with `other`
assigned exactly when none of the four earlier rules matches. -/
theorem c5_classification :
    (∀ p : FANUCProgram, mainNamePat p.name.data = true →
      (classifyProgram p).program_type = "main") ∧
    (∀ p : FANUCProgram, p.name = "A_1PA001" →
      (classifyProgram p).program_type = "main") ∧
    (∀ p : FANUCProgram, p.name = "A_1PA00" →
      (classifyProgram p).program_type = "other") ∧
    (∀ p : FANUCProgram,
      (classifyProgram p).program_type = "main" ∨
      (classifyProgram p).program_type = "subprogram" ∨
      (classifyProgram p).program_type = "utility" ∨
      (classifyProgram p).program_type = "system" ∨
      (classifyProgram p).program_type = "other") ∧
    (∀ p : FANUCProgram,
      mainNamePat p.name.data = false →
      (["KER1_", "KER2_", "AFLG_", "PRINTEN", "BUF_"].any
        (fun pre => containsSeq pre.data p.name.data)) = false →
      (["HOMING", "HOMEN", "HOMEN1", "TEKST", "FOLIE", "DUMPEN", "RUST"].any
        (fun u => u = p.name)) = false →
      ¬ (("ERR".data).isPrefixOf p.name.data ∨ p.name = "LOGBOOK" ∨ p.name = "PMC") →
      (classifyProgram p).program_type = "other") := by
  refine ⟨?_, ?_, ?_, ?_, ?_⟩
  · intro p h
    rw [classifyProgram_type]
    unfold programTypeOf
    rw [if_pos h]
  · intro p h
    rw [classifyProgram_type, h]
    decide
  · intro p h
    rw [classifyProgram_type, h]
    decide
  · intro p
    rw [classifyProgram_type]
    unfold programTypeOf
    repeat' split
    · exact Or.inl rfl
    · exact Or.inr (Or.inl rfl)
    · exact Or.inr (Or.inr (Or.inl rfl))
    · exact Or.inr (Or.inr (Or.inr (Or.inl rfl)))
    · exact Or.inr (Or.inr (Or.inr (Or.inr rfl)))
  · intro p h1 h2 h3 h4
    rw [classifyProgram_type]
    unfold programTypeOf
    rw [if_neg (by simp [h1]), if_neg (by simp [h2]), if_neg (by simp [h3]),
        if_neg h4]

/-- Witness for C5 at the two boundary names of the claim. -/
theorem c5_classification_witness :
    (classifyProgram { initProgram ("f") with name := "A_1PA001" }).program_type
      = "main" ∧
    (classifyProgram { initProgram ("f") with name := "A_1PA00" }).program_type
      = "other" :=
  ⟨c5_classification.2.1 _ rfl, c5_classification.2.2.1 _ rfl⟩

/-!
## Claim C8 — missing sections are non-fatal
-/

/-- **C8**: when a region's anchor pair is absent — the `/MN ... /POS|/END`
pair, the `/ATTR ... /APPL|/MN` pair, or the `/POS ... /END` pair — the
per-unit parse still completes (it is a total function) and the resulting
model simply has that region empty: no code lines, labels, errors, jumps,
calls or operand references for a missing main-code region; no attributes
for a missing attribute region; no positions for a missing position region.
Each region is located by its own independent search of the content. -/
theorem c8_missing_sections_nonfatal (fn content : String) :
    (extractSection ("/MN".data) [("/POS".data), ("/END".data)] content.data = none →
      (parseFile fn content).code_lines = [] ∧
      (parseFile fn content).labels = [] ∧
      (parseFile fn content).errors = [] ∧
      (parseFile fn content).jumps = [] ∧
      (parseFile fn content).calls = [] ∧
      (parseFile fn content).registers_used = [] ∧
      (parseFile fn content).digital_inputs = [] ∧
      (parseFile fn content).digital_outputs = [] ∧
      (parseFile fn content).register_inputs = [] ∧
      (parseFile fn content).register_outputs = [] ∧
      (parseFile fn content).position_registers = []) ∧
    (extractSection ("/ATTR".data) [("/APPL".data), ("/MN".data)] content.data = none →
      (parseFile fn content).attributes = []) ∧
    (extractSection ("/POS".data) [("/END".data)] content.data = none →
      (parseFile fn content).positions = []) := by
  refine ⟨?_, ?_, ?_⟩
  · intro h
    have hv : codeView (parseFile fn content) = codeView (initProgram fn) := by
      unfold parseFile
      rw [calculateStatistics_codeView, classifyProgram_codeView,
        parsePositions_codeView, parseCode_of_none _ _ h,
        parseAttributes_codeView, parseHeader_codeView]
    simp only [codeView, initProgram, Prod.mk.injEq] at hv
    exact ⟨hv.1, hv.2.1, hv.2.2.1, hv.2.2.2.1, hv.2.2.2.2.1, hv.2.2.2.2.2.1,
      hv.2.2.2.2.2.2.1, hv.2.2.2.2.2.2.2.1, hv.2.2.2.2.2.2.2.2.1,
      hv.2.2.2.2.2.2.2.2.2.1, hv.2.2.2.2.2.2.2.2.2.2⟩
  · intro h
    show (parseFile fn content).attributes = []
    unfold parseFile
    rw [calculateStatistics_attributes, classifyProgram_attributes,
      parsePositions_attributes, parseCode_attributes,
      parseAttributes_of_none _ _ h, parseHeader_attributes]
    rfl
  · intro h
    show (parseFile fn content).positions = []
    unfold parseFile
    rw [calculateStatistics_positions, classifyProgram_positions,
      parsePositions_of_none _ _ h, parseCode_positions,
      parseAttributes_positions, parseHeader_positions]
    rfl

/-- Witness for C8: a content consisting only of a header, in which all
three anchor pairs are absent. -/
theorem c8_missing_sections_nonfatal_witness :
    (parseFile ("f") ("/PROG FOO")).code_lines = [] ∧
    (parseFile ("f") ("/PROG FOO")).attributes = [] ∧
    (parseFile ("f") ("/PROG FOO")).positions = [] :=
  ⟨((c8_missing_sections_nonfatal ("f") ("/PROG FOO")).1 (by decide)).1,
   (c8_missing_sections_nonfatal ("f") ("/PROG FOO")).2.1 (by decide),
   (c8_missing_sections_nonfatal ("f") ("/PROG FOO")).2.2 (by decide)⟩

/-!
## Claim C4 — the error window `[500, 800)`

In `_parse_code`, `errors` receives exactly the parsed labels whose id lies
in `[500, 800)`; in the flow analyzer, `error_nodes` receives exactly the
ids of created flow nodes in that window.
-/

theorem parseHeader_labels (p : FANUCProgram) (cs : List Char) :
    (parseHeader p cs).labels = p.labels := by
  unfold parseHeader; cases reSearch matchPROG cs <;> rfl

theorem parseHeader_errors (p : FANUCProgram) (cs : List Char) :
    (parseHeader p cs).errors = p.errors := by
  unfold parseHeader; cases reSearch matchPROG cs <;> rfl

theorem parseAttributes_labels (p : FANUCProgram) (cs : List Char) :
    (parseAttributes p cs).labels = p.labels := by
  unfold parseAttributes
  cases extractSection ("/ATTR".data) [("/APPL".data), ("/MN".data)] cs <;> rfl

theorem parseAttributes_errors (p : FANUCProgram) (cs : List Char) :
    (parseAttributes p cs).errors = p.errors := by
  unfold parseAttributes
  cases extractSection ("/ATTR".data) [("/APPL".data), ("/MN".data)] cs <;> rfl

theorem parsePositions_labels (p : FANUCProgram) (cs : List Char) :
    (parsePositions p cs).labels = p.labels := by
  unfold parsePositions
  cases extractSection ("/POS".data) [("/END".data)] cs <;> rfl

theorem parsePositions_errors (p : FANUCProgram) (cs : List Char) :
    (parsePositions p cs).errors = p.errors := by
  unfold parsePositions
  cases extractSection ("/POS".data) [("/END".data)] cs <;> rfl

theorem classifyProgram_labels (p : FANUCProgram) :
    (classifyProgram p).labels = p.labels := by
  unfold classifyProgram
  dsimp only
  repeat' split
  all_goals rfl

theorem classifyProgram_errors (p : FANUCProgram) :
    (classifyProgram p).errors = p.errors := by
  unfold classifyProgram
  dsimp only
  repeat' split
  all_goals rfl

theorem errDelta_eq_filterMap (line : List Char) (i : Nat) :
    errDelta line =
      (lblDelta line i).filterMap
        (fun t => if 500 ≤ t.1 ∧ t.1 < 800 then some (t.1, t.2.1) else none) := by
  unfold errDelta lblDelta
  cases labelSearch line with
  | none => rfl
  | some v =>
    obtain ⟨n, nm⟩ := v
    by_cases hc : 500 ≤ n ∧ n < 800 <;>
      simp [hc, List.filterMap]

theorem parseCodeLine_err_inv (p : FANUCProgram) (i : Nat) (raw : List Char)
    (h : p.errors = p.labels.filterMap
      (fun t => if 500 ≤ t.1 ∧ t.1 < 800 then some (t.1, t.2.1) else none)) :
    (parseCodeLine p i raw).errors = (parseCodeLine p i raw).labels.filterMap
      (fun t => if 500 ≤ t.1 ∧ t.1 < 800 then some (t.1, t.2.1) else none) := by
  unfold parseCodeLine
  split
  · exact h
  · show (parseCodeBody p i _).errors = _
    unfold parseCodeBody
    dsimp only
    rw [List.filterMap_append, ← h, errDelta_eq_filterMap _ i]

theorem calculateStatistics_labels (p : FANUCProgram) :
    (calculateStatistics p).labels = p.labels := rfl

theorem calculateStatistics_errors (p : FANUCProgram) :
    (calculateStatistics p).errors = p.errors := rfl

theorem parseFile_err_eq (fn content : String) :
    (parseFile fn content).errors = (parseFile fn content).labels.filterMap
      (fun t => if 500 ≤ t.1 ∧ t.1 < 800 then some (t.1, t.2.1) else none) := by
  unfold parseFile
  rw [calculateStatistics_errors, calculateStatistics_labels,
    classifyProgram_errors, classifyProgram_labels,
    parsePositions_errors, parsePositions_labels]
  have h0 : (parseAttributes (parseHeader (initProgram fn) content.data)
        content.data).errors =
      (parseAttributes (parseHeader (initProgram fn) content.data)
        content.data).labels.filterMap
        (fun t => if 500 ≤ t.1 ∧ t.1 < 800 then some (t.1, t.2.1) else none) := by
    rw [parseAttributes_errors, parseAttributes_labels, parseHeader_errors,
      parseHeader_labels]
    rfl
  unfold parseCode
  split
  · exact h0
  · exact foldl_inv _
      (fun q => q.errors = q.labels.filterMap
        (fun t => if 500 ≤ t.1 ∧ t.1 < 800 then some (t.1, t.2.1) else none))
      (fun q (il : Nat × List Char) hq => parseCodeLine_err_inv q il.1 il.2 hq) _ _ h0

theorem nodesLookup_mapSet (m : List (Nat × FlowNode)) (k : Nat) (v : FlowNode)
    (n : Nat) :
    nodesLookup (mapSet m k v) n = if k = n then some v else nodesLookup m n := by
  induction m with
  | nil => rfl
  | cons hd rest ih =>
    obtain ⟨k', v'⟩ := hd
    simp only [mapSet]
    split
    · next h1 =>
      subst h1
      simp only [nodesLookup]
      by_cases h2 : k' = n <;> simp [h2]
    · next h1 =>
      simp only [nodesLookup, ih]
      by_cases h2 : k' = n <;> by_cases h3 : k = n <;> simp_all

theorem nodesLookup_updateNode (m : List (Nat × FlowNode)) (k : Nat)
    (f : FlowNode → FlowNode) (n : Nat) :
    nodesLookup (updateNode m k f) n =
      if k = n then (nodesLookup m n).map f else nodesLookup m n := by
  induction m with
  | nil =>
    simp only [updateNode, nodesLookup]
    split <;> rfl
  | cons hd rest ih =>
    obtain ⟨k', v'⟩ := hd
    simp only [updateNode]
    split
    · next h1 =>
      subst h1
      simp only [nodesLookup]
      by_cases h2 : k' = n <;> simp_all
    · next h1 =>
      simp only [nodesLookup, ih]
      by_cases h2 : k' = n <;> by_cases h3 : k = n <;> simp_all

theorem flowApplyLabel_nodes (st : FlowState) (n : Nat) (nm : String) :
    (flowApplyLabel st n nm).flow_nodes =
      mapSet st.flow_nodes n
        { label_num := n, label_name := nm, instructions := [],
          successors := [], conditions := [] } := by
  unfold flowApplyLabel
  dsimp only
  repeat' split
  all_goals rfl

theorem flowApplyLabel_current (st : FlowState) (n : Nat) (nm : String) :
    (flowApplyLabel st n nm).current = some n := by
  unfold flowApplyLabel
  dsimp only
  repeat' split
  all_goals rfl

theorem flowApplyLabel_errors (st : FlowState) (n : Nat) (nm : String) :
    (flowApplyLabel st n nm).error_nodes =
      if n = 10 ∨ n = 20 then st.error_nodes
      else if 500 ≤ n ∧ n < 800 then st.error_nodes ++ [n]
      else st.error_nodes := by
  unfold flowApplyLabel
  dsimp only
  repeat' split
  all_goals rfl

theorem flowApplyInstr_errors (st : FlowState) (line : List Char) :
    (flowApplyInstr st line).error_nodes = st.error_nodes := by
  unfold flowApplyInstr
  cases st.current
  · rfl
  · dsimp only
    split <;> rfl

theorem flowApplyInstr_isSome (st : FlowState) (line : List Char) (n : Nat) :
    (nodesLookup (flowApplyInstr st line).flow_nodes n).isSome =
      (nodesLookup st.flow_nodes n).isSome := by
  unfold flowApplyInstr
  cases st.current with
  | none => rfl
  | some c =>
    dsimp only
    have h : ∀ fl : List (Nat × FlowNode),
        (nodesLookup (updateNode fl c (instrXform line)) n).isSome =
          (nodesLookup fl n).isSome := by
      intro fl
      rw [nodesLookup_updateNode]
      split
      · cases nodesLookup fl n <;> rfl
      · rfl
    split <;> simp only [h]

/-- The flow-parse invariant for claim C4: membership in `error_nodes` is
exactly "the id is a flow-graph key and lies in the error window". -/
theorem flowLineStep_error_inv (st : FlowState) (raw : List Char)
    (h : ∀ n : Nat, n ∈ st.error_nodes ↔
      ((nodesLookup st.flow_nodes n).isSome ∧ 500 ≤ n ∧ n < 800)) :
    ∀ n : Nat, n ∈ (flowLineStep st raw).error_nodes ↔
      ((nodesLookup (flowLineStep st raw).flow_nodes n).isSome ∧
        500 ≤ n ∧ n < 800) := by
  intro n
  unfold flowLineStep
  split
  · exact h n
  · split
    · next m nm heq =>
      rw [flowApplyLabel_errors, flowApplyLabel_nodes, nodesLookup_mapSet]
      by_cases hmn : m = n
      · subst hmn
        rw [if_pos rfl]
        simp only [Option.isSome_some, true_and]
        by_cases h10 : m = 10 ∨ m = 20
        · rw [if_pos h10]
          constructor
          · intro hm; exact ((h m).mp hm).2
          · intro hr; omega
        · rw [if_neg h10]
          by_cases hr : 500 ≤ m ∧ m < 800
          · rw [if_pos hr]
            constructor
            · intro _; exact hr
            · intro _
              exact List.mem_append.mpr (Or.inr (List.mem_singleton.mpr rfl))
          · rw [if_neg hr]
            constructor
            · intro hm; exact ((h m).mp hm).2
            · intro hr2; exact absurd hr2 hr
      · rw [if_neg hmn]
        by_cases h10 : m = 10 ∨ m = 20
        · rw [if_pos h10]; exact h n
        · rw [if_neg h10]
          by_cases hr : 500 ≤ m ∧ m < 800
          · rw [if_pos hr]
            rw [List.mem_append, List.mem_singleton]
            constructor
            · intro hm
              rcases hm with hm | hm
              · exact (h n).mp hm
              · exact absurd hm.symm hmn
            · intro hs; exact Or.inl ((h n).mpr hs)
          · rw [if_neg hr]; exact h n
    · rw [flowApplyInstr_errors, flowApplyInstr_isSome]
      exact h n

/-- **C4**: a parsed label id `n` is classified as an error label exactly
when `500 ≤ n < 800`, in both parsers: in `_parse_code`, some alias is
recorded for `n` in `program.errors` iff `n` occurs in `program.labels` and
lies in the window (so 499 and 800 are never error labels while 500 and 799
are whenever parsed); in the flow analyzer, `n` is in `error_nodes` iff it is
a key of the flow graph and lies in the window.  Membership depends on the
numeric id alone. -/
theorem c4_error_window_iff (fn content : String) (n : Nat) :
    ((∃ nm, (n, nm) ∈ (parseFile fn content).errors) ↔
      ((∃ nm i, (n, nm, i) ∈ (parseFile fn content).labels) ∧
        500 ≤ n ∧ n < 800)) ∧
    (n ∈ (parseProgramFlow content).error_nodes ↔
      ((nodesLookup (parseProgramFlow content).flow_nodes n).isSome ∧
        500 ≤ n ∧ n < 800)) := by
  constructor
  · rw [parseFile_err_eq fn content]
    constructor
    · rintro ⟨nm, hmem⟩
      rw [List.mem_filterMap] at hmem
      obtain ⟨⟨m, s, i⟩, hml, hf⟩ := hmem
      by_cases hc : 500 ≤ m ∧ m < 800
      · rw [if_pos hc] at hf
        simp only [Option.some.injEq, Prod.mk.injEq] at hf
        obtain ⟨h1, h2⟩ := hf
        subst h1
        exact ⟨⟨s, i, hml⟩, hc⟩
      · rw [if_neg hc] at hf
        exact absurd hf (by simp)
    · rintro ⟨⟨nm, i, hml⟩, hr⟩
      refine ⟨nm, ?_⟩
      rw [List.mem_filterMap]
      exact ⟨(n, nm, i), hml, by rw [if_pos hr]⟩
  · have hinit : ∀ k : Nat, k ∈ initFlowState.error_nodes ↔
        ((nodesLookup initFlowState.flow_nodes k).isSome ∧ 500 ≤ k ∧ k < 800) := by
      intro k
      simp [initFlowState, nodesLookup]
    unfold parseProgramFlow
    split
    · exact hinit n
    · exact foldl_inv _
        (fun st => ∀ k : Nat, k ∈ st.error_nodes ↔
          ((nodesLookup st.flow_nodes k).isSome ∧ 500 ≤ k ∧ k < 800))
        (fun st raw hst => flowLineStep_error_inv st raw hst)
        _ _ hinit n

/-!
## Claim C6 — operand-alias aggregation
-/

theorem mem_setAdd_self {α : Type} [DecidableEq α] (l : List α) (x : α) :
    x ∈ setAdd l x := by
  unfold setAdd
  split
  · assumption
  · exact List.mem_append.mpr (Or.inr (List.mem_singleton.mpr rfl))

theorem mem_setAdd_of_mem {α : Type} [DecidableEq α] (l : List α) (x y : α)
    (h : y ∈ l) : y ∈ setAdd l x := by
  unfold setAdd
  split
  · exact h
  · exact List.mem_append.mpr (Or.inl h)

theorem mem_aliasesAt_addAlias_self (m : List (Nat × List String)) (n : Nat)
    (a : String) : a ∈ aliasesAt (addAlias m n a) n := by
  induction m with
  | nil =>
    simp only [addAlias, aliasesAt, if_pos rfl]
    exact List.mem_singleton.mpr rfl
  | cons hd rest ih =>
    obtain ⟨k, s⟩ := hd
    unfold addAlias
    split
    · next h =>
      simp only [aliasesAt]
      rw [if_pos h]
      exact mem_setAdd_self s a
    · next h =>
      simp only [aliasesAt]
      rw [if_neg h]
      exact ih

theorem mem_aliasesAt_addAlias_of_mem (m : List (Nat × List String))
    (n q : Nat) (a x : String) (h : x ∈ aliasesAt m q) :
    x ∈ aliasesAt (addAlias m n a) q := by
  induction m with
  | nil => simp [aliasesAt] at h
  | cons hd rest ih =>
    obtain ⟨k, s⟩ := hd
    unfold addAlias
    split
    · next hkn =>
      simp only [aliasesAt] at h ⊢
      split
      · next hkq =>
        rw [if_pos hkq] at h
        exact mem_setAdd_of_mem s a x h
      · next hkq =>
        rw [if_neg hkq] at h
        exact h
    · next hkn =>
      simp only [aliasesAt] at h ⊢
      split
      · next hkq => rw [if_pos hkq] at h; exact h
      · next hkq => rw [if_neg hkq] at h; exact ih h

theorem aliases_regs_fold_mono (regs : List (Nat × String))
    (m : List (Nat × List String)) (q : Nat) (x : String)
    (h : x ∈ aliasesAt m q) :
    x ∈ aliasesAt
      (regs.foldl
        (fun m' r => if ¬ (r.2 = "") then addAlias m' r.1 r.2 else m') m) q := by
  induction regs generalizing m with
  | nil => exact h
  | cons r rest ih =>
    simp only [List.foldl_cons]
    apply ih
    split
    · exact mem_aliasesAt_addAlias_of_mem _ _ _ _ _ h
    · exact h

theorem aliases_regs_fold_self (regs : List (Nat × String))
    (m : List (Nat × List String)) (q : Nat) (x : String)
    (hmem : (q, x) ∈ regs) (hx : ¬ x = "") :
    x ∈ aliasesAt
      (regs.foldl
        (fun m' r => if ¬ (r.2 = "") then addAlias m' r.1 r.2 else m') m) q := by
  induction regs generalizing m with
  | nil => simp at hmem
  | cons r rest ih =>
    simp only [List.foldl_cons]
    rcases List.mem_cons.mp hmem with heq | htl
    · subst heq
      apply aliases_regs_fold_mono
      rw [if_pos hx]
      exact mem_aliasesAt_addAlias_self m q x
    · exact ih _ htl

theorem aliases_progs_fold_mono (progs : List FANUCProgram)
    (m : List (Nat × List String)) (q : Nat) (x : String)
    (h : x ∈ aliasesAt m q) :
    x ∈ aliasesAt
      (progs.foldl
        (fun m p =>
          p.registers_used.foldl
            (fun m' r => if ¬ (r.2 = "") then addAlias m' r.1 r.2 else m') m)
        m) q := by
  induction progs generalizing m with
  | nil => exact h
  | cons p rest ih =>
    simp only [List.foldl_cons]
    exact ih _ (aliases_regs_fold_mono _ _ _ _ h)

theorem aliases_progs_fold_self (progs : List FANUCProgram)
    (m : List (Nat × List String)) (p : FANUCProgram) (q : Nat) (x : String)
    (hp : p ∈ progs) (hmem : (q, x) ∈ p.registers_used) (hx : ¬ x = "") :
    x ∈ aliasesAt
      (progs.foldl
        (fun m p =>
          p.registers_used.foldl
            (fun m' r => if ¬ (r.2 = "") then addAlias m' r.1 r.2 else m') m)
        m) q := by
  induction progs generalizing m with
  | nil => simp at hp
  | cons p' rest ih =>
    simp only [List.foldl_cons]
    rcases List.mem_cons.mp hp with heq | htl
    · subst heq
      exact aliases_progs_fold_mono _ _ _ _
        (aliases_regs_fold_self _ _ _ _ hmem hx)
    · exact ih _ htl

/-- **C6**: the global register table built by `_build_register_map` retains
every nonempty alias any program observed for an id: if one program in the
collection observed `(n, a)` and another observed `(n, b)` (both aliases
nonempty), the table entry for `n` contains both `a` and `b` — an id
observed with several distinct aliases keeps all of them and is never
reduced to a single alias. -/
theorem c6_alias_aggregation (progs : List FANUCProgram)
    (p q : FANUCProgram) (n : Nat) (a b : String)
    (hp : p ∈ progs) (hq : q ∈ progs)
    (ha : (n, a) ∈ p.registers_used) (hb : (n, b) ∈ q.registers_used)
    (hna : ¬ a = "") (hnb : ¬ b = "") :
    a ∈ aliasesAt (buildRegisterMap progs) n ∧
    b ∈ aliasesAt (buildRegisterMap progs) n := by
  unfold buildRegisterMap
  exact ⟨aliases_progs_fold_self progs [] p n a hp ha hna,
    aliases_progs_fold_self progs [] q n b hq hb hnb⟩

/-- Witness for C6: the claim's own scenario, `R[12:SpeedRef]` parsed in one
unit and `R[12:SpeedAlt]` in another; the aggregated entry for id 12 is
exactly the two-alias set. -/
theorem c6_alias_aggregation_witness :
    (("SpeedRef" : String) ∈
        aliasesAt (buildRegisterMap
          [parseFile ("a") sampleC6A, parseFile ("b") sampleC6B]) 12 ∧
      ("SpeedAlt" : String) ∈
        aliasesAt (buildRegisterMap
          [parseFile ("a") sampleC6A, parseFile ("b") sampleC6B]) 12) ∧
    aliasesAt (buildRegisterMap
      [parseFile ("a") sampleC6A, parseFile ("b") sampleC6B]) 12 =
      ["SpeedRef", "SpeedAlt"] :=
  ⟨c6_alias_aggregation
      [parseFile ("a") sampleC6A, parseFile ("b") sampleC6B]
      (parseFile ("a") sampleC6A) (parseFile ("b") sampleC6B)
      12 ("SpeedRef") ("SpeedAlt")
      (by decide) (by decide) (by decide) (by decide) (by decide) (by decide),
    by decide⟩

/-!
## Claim C7 — label redefinition is last-wins
-/

theorem flowLineStep_none (st : FlowState) (raw : List Char)
    (hc : lineClass raw = none) : flowLineStep st raw = st := by
  unfold flowLineStep
  rw [hc]

theorem flowLineStep_some (st : FlowState) (raw line : List Char)
    (hc : lineClass raw = some line) :
    flowLineStep st raw =
      match labelSearch line with
      | some (n, nm) => flowApplyLabel st n (String.mk (pyStrip nm))
      | none => flowApplyInstr st line := by
  unfold flowLineStep
  rw [hc]

theorem flowLabelOf_some (raw line : List Char)
    (hc : lineClass raw = some line) :
    flowLabelOf raw = labelSearch line := by
  unfold flowLabelOf
  rw [hc]

theorem flowLineStep_of_label (st : FlowState) (raw : List Char) (n : Nat)
    (nm : List Char) (h : flowLabelOf raw = some (n, nm)) :
    flowLineStep st raw = flowApplyLabel st n (String.mk (pyStrip nm)) := by
  cases hc : lineClass raw with
  | none =>
    unfold flowLabelOf at h
    rw [hc] at h
    exact absurd h (by simp)
  | some line =>
    rw [flowLineStep_some st raw line hc]
    rw [flowLabelOf_some raw line hc] at h
    rw [h]

theorem instrXform_label_num (line : List Char) (nd : FlowNode) :
    (instrXform line nd).label_num = nd.label_num := by
  unfold instrXform
  dsimp only
  repeat' split
  all_goals rfl

theorem instrXform_label_name (line : List Char) (nd : FlowNode) :
    (instrXform line nd).label_name = nd.label_name := by
  unfold instrXform
  dsimp only
  repeat' split
  all_goals rfl

theorem flowLineStep_congr (raw : List Char) (n : Nat)
    (hnd : definesId raw n = false) (s₁ s₂ : FlowState)
    (hc : s₁.current = s₂.current)
    (hl : nodesLookup s₁.flow_nodes n = nodesLookup s₂.flow_nodes n) :
    (flowLineStep s₁ raw).current = (flowLineStep s₂ raw).current ∧
    nodesLookup (flowLineStep s₁ raw).flow_nodes n =
      nodesLookup (flowLineStep s₂ raw).flow_nodes n := by
  cases hcl : lineClass raw with
  | none =>
    rw [flowLineStep_none s₁ raw hcl, flowLineStep_none s₂ raw hcl]
    exact ⟨hc, hl⟩
  | some line =>
    rw [flowLineStep_some s₁ raw line hcl, flowLineStep_some s₂ raw line hcl]
    cases hls : labelSearch line with
    | some v =>
      obtain ⟨m, nm⟩ := v
      dsimp only
      have hmn : ¬ m = n := by
        unfold definesId at hnd
        rw [flowLabelOf_some raw line hcl, hls] at hnd
        simpa using hnd
      constructor
      · rw [flowApplyLabel_current, flowApplyLabel_current]
      · rw [flowApplyLabel_nodes, flowApplyLabel_nodes, nodesLookup_mapSet,
          nodesLookup_mapSet, if_neg hmn, if_neg hmn, hl]
    | none =>
      dsimp only
      unfold flowApplyInstr
      rw [hc]
      cases hcur : s₂.current with
      | none => exact ⟨hc, hl⟩
      | some c =>
        dsimp only
        split
        · constructor
          · rfl
          · dsimp only
            rw [nodesLookup_updateNode, nodesLookup_updateNode, hl]
        · constructor
          · rfl
          · dsimp only
            rw [nodesLookup_updateNode, nodesLookup_updateNode, hl]

theorem flowLineStep_keeps_node (raw : List Char) (n : Nat) (s0 : String)
    (hnd : definesId raw n = false) (st : FlowState)
    (h : ∃ nd, nodesLookup st.flow_nodes n = some nd ∧
      nd.label_num = n ∧ nd.label_name = s0) :
    ∃ nd, nodesLookup (flowLineStep st raw).flow_nodes n = some nd ∧
      nd.label_num = n ∧ nd.label_name = s0 := by
  obtain ⟨nd, hnd0, hnum, hname⟩ := h
  cases hcl : lineClass raw with
  | none =>
    rw [flowLineStep_none st raw hcl]
    exact ⟨nd, hnd0, hnum, hname⟩
  | some line =>
    rw [flowLineStep_some st raw line hcl]
    cases hls : labelSearch line with
    | some v =>
      obtain ⟨m, nm⟩ := v
      dsimp only
      have hmn : ¬ m = n := by
        unfold definesId at hnd
        rw [flowLabelOf_some raw line hcl, hls] at hnd
        simpa using hnd
      refine ⟨nd, ?_, hnum, hname⟩
      rw [flowApplyLabel_nodes, nodesLookup_mapSet, if_neg hmn]
      exact hnd0
    | none =>
      dsimp only
      unfold flowApplyInstr
      cases hcur : st.current with
      | none => exact ⟨nd, hnd0, hnum, hname⟩
      | some c =>
        dsimp only
        have hup : ∀ st' : FlowState,
            st'.flow_nodes = updateNode st.flow_nodes c (instrXform line) →
            ∃ nd', nodesLookup st'.flow_nodes n = some nd' ∧
              nd'.label_num = n ∧ nd'.label_name = s0 := by
          intro st' hst'
          rw [hst', nodesLookup_updateNode]
          by_cases hcn : c = n
          · rw [if_pos hcn, hnd0]
            exact ⟨instrXform line nd, rfl,
              by rw [instrXform_label_num]; exact hnum,
              by rw [instrXform_label_name]; exact hname⟩
          · rw [if_neg hcn]
            exact ⟨nd, hnd0, hnum, hname⟩
        split
        · exact hup _ rfl
        · exact hup _ rfl

theorem flowFold_congr (post : List (List Char)) (n : Nat)
    (hnd : ∀ l ∈ post, definesId l n = false) :
    ∀ s₁ s₂ : FlowState, s₁.current = s₂.current →
    nodesLookup s₁.flow_nodes n = nodesLookup s₂.flow_nodes n →
    (post.foldl flowLineStep s₁).current = (post.foldl flowLineStep s₂).current ∧
    nodesLookup (post.foldl flowLineStep s₁).flow_nodes n =
      nodesLookup (post.foldl flowLineStep s₂).flow_nodes n := by
  induction post with
  | nil => exact fun s₁ s₂ hc hl => ⟨hc, hl⟩
  | cons l rest ih =>
    intro s₁ s₂ hc hl
    simp only [List.foldl_cons]
    have hstep := flowLineStep_congr l n (hnd l (List.mem_cons_self l rest)) s₁ s₂ hc hl
    exact ih (fun x hx => hnd x (List.mem_cons_of_mem l hx)) _ _ hstep.1 hstep.2

theorem flowFold_keeps_node (post : List (List Char)) (n : Nat) (s0 : String)
    (hnd : ∀ l ∈ post, definesId l n = false) :
    ∀ st : FlowState,
    (∃ nd, nodesLookup st.flow_nodes n = some nd ∧
      nd.label_num = n ∧ nd.label_name = s0) →
    ∃ nd, nodesLookup (post.foldl flowLineStep st).flow_nodes n = some nd ∧
      nd.label_num = n ∧ nd.label_name = s0 := by
  induction post with
  | nil => exact fun st h => h
  | cons l rest ih =>
    intro st h
    simp only [List.foldl_cons]
    exact ih (fun x hx => hnd x (List.mem_cons_of_mem l hx)) _
      (flowLineStep_keeps_node l n s0 (hnd l (List.mem_cons_self l rest)) st h)

/-- **C7**: label redefinition is last-wins.  If the line `d` defines label
`n` (with alias text `nm`) and no later line defines `n` again, then in the
flow graph built from any program text `pre ++ d :: post` the mapping at `n`
is exactly what the build of `d :: post` alone produces — every block opened
for `n` by the (arbitrarily many) earlier definitions in `pre` has been
overwritten and is no longer reachable through the mapping — and the block
stored at `n` is the one opened by this last definition: it exists and still
carries the id `n` and the alias of the last definition. -/
theorem c7_label_redefinition_last_wins (pre post : List (List Char))
    (d : List Char) (n : Nat) (nm : List Char)
    (hd : flowLabelOf d = some (n, nm))
    (hpost : ∀ l ∈ post, definesId l n = false) :
    nodesLookup (buildFlowLines (pre ++ d :: post)).flow_nodes n =
      nodesLookup (buildFlowLines (d :: post)).flow_nodes n ∧
    ∃ nd, nodesLookup (buildFlowLines (pre ++ d :: post)).flow_nodes n = some nd ∧
      nd.label_num = n ∧ nd.label_name = String.mk (pyStrip nm) := by
  unfold buildFlowLines
  rw [List.foldl_append]
  simp only [List.foldl_cons]
  rw [flowLineStep_of_label _ d n nm hd, flowLineStep_of_label _ d n nm hd]
  have hcur : (flowApplyLabel (pre.foldl flowLineStep initFlowState) n
        (String.mk (pyStrip nm))).current =
      (flowApplyLabel initFlowState n (String.mk (pyStrip nm))).current := by
    rw [flowApplyLabel_current, flowApplyLabel_current]
  have hself : ∀ st : FlowState,
      nodesLookup (flowApplyLabel st n (String.mk (pyStrip nm))).flow_nodes n =
        some { label_num := n, label_name := String.mk (pyStrip nm),
               instructions := [], successors := [], conditions := [] } := by
    intro st
    rw [flowApplyLabel_nodes, nodesLookup_mapSet, if_pos rfl]
  have hlook : nodesLookup (flowApplyLabel (pre.foldl flowLineStep initFlowState)
        n (String.mk (pyStrip nm))).flow_nodes n =
      nodesLookup (flowApplyLabel initFlowState n
        (String.mk (pyStrip nm))).flow_nodes n := by
    rw [hself, hself]
  refine ⟨(flowFold_congr post n hpost _ _ hcur hlook).2, ?_⟩
  exact flowFold_keeps_node post n (String.mk (pyStrip nm)) hpost _
    ⟨_, hself _, rfl, rfl⟩

/-- Witness for C7: `LBL[5:OLD]` redefined by a later `LBL[5:NEW]`; the
mapping keeps only the block of the second definition. -/
theorem c7_label_redefinition_last_wins_witness :
    nodesLookup
        (buildFlowLines
          ([("LBL[5:OLD]".data), ("CALL SUB9".data)] ++
            ("LBL[5:NEW]".data) :: [("CALL SUB2".data), ("END".data)])).flow_nodes
        5 =
      nodesLookup
        (buildFlowLines
          (("LBL[5:NEW]".data) :: [("CALL SUB2".data), ("END".data)])).flow_nodes
        5 ∧
    ∃ nd, nodesLookup
        (buildFlowLines
          ([("LBL[5:OLD]".data), ("CALL SUB9".data)] ++
            ("LBL[5:NEW]".data) :: [("CALL SUB2".data), ("END".data)])).flow_nodes
        5 = some nd ∧
      nd.label_num = 5 ∧ nd.label_name = String.mk (pyStrip ("NEW".data)) :=
  c7_label_redefinition_last_wins
    [("LBL[5:OLD]".data), ("CALL SUB9".data)]
    [("CALL SUB2".data), ("END".data)]
    ("LBL[5:NEW]".data) 5 ("NEW".data)
    (by decide) (by decide)

/-!
## Claim C3 — cycle-safe call-tree traversal

The fuel-complete run of `callTreeF` is the termination statement: the
Python recursion performs exactly the same calls, and the proof below shows
the recursion depth never exceeds the number of names in the call graph plus
one, because every non-trivial call permanently adds an unvisited graph name
to the visited set.
-/

theorem length_filter_mono {α : Type} (l : List α) (p q : α → Bool)
    (h : ∀ x ∈ l, p x = true → q x = true) :
    (l.filter p).length ≤ (l.filter q).length := by
  induction l with
  | nil => exact Nat.le_refl 0
  | cons x t ih =>
    have iht := ih (fun y hy hp => h y (List.mem_cons_of_mem x hy) hp)
    simp only [List.filter_cons]
    cases hp : p x with
    | true =>
      rw [h x (List.mem_cons_self x t) hp]
      simpa using Nat.succ_le_succ iht
    | false =>
      cases hq : q x with
      | true => simpa using Nat.le_succ_of_le iht
      | false => simpa using iht

theorem unvisited_mono (g : List (String × List String))
    (vis vis' : List String) (h : ∀ x ∈ vis, x ∈ vis') :
    unvisited g vis' ≤ unvisited g vis := by
  unfold unvisited
  apply length_filter_mono
  intro x _ hx
  rw [decide_eq_true_eq] at hx ⊢
  intro hmem
  exact hx (h x hmem)

theorem length_filter_cons_lt {α : Type} [DecidableEq α] (l : List α) (a : α)
    (vis : List α) (hal : a ∈ l) (hav : a ∉ vis) :
    (l.filter (fun x => decide (¬ x ∈ a :: vis))).length <
      (l.filter (fun x => decide (¬ x ∈ vis))).length := by
  induction l with
  | nil => simp at hal
  | cons x t ih =>
    simp only [List.filter_cons]
    by_cases hxa : x = a
    · subst hxa
      have h1 : (decide (¬ x ∈ x :: vis)) = false := by
        simp
      have h2 : (decide (¬ x ∈ vis)) = true := by
        simpa using hav
      rw [h1, h2]
      have hmono : (t.filter (fun y => decide (¬ y ∈ x :: vis))).length ≤
          (t.filter (fun y => decide (¬ y ∈ vis))).length := by
        apply length_filter_mono
        intro y _ hy
        rw [decide_eq_true_eq] at hy ⊢
        intro hmem
        exact hy (List.mem_cons_of_mem x hmem)
      simpa using Nat.lt_succ_of_le hmono
    · have hat : a ∈ t := by
        rcases List.mem_cons.mp hal with h | h
        · exact absurd h.symm hxa
        · exact h
      have hsame : (decide (¬ x ∈ a :: vis)) = (decide (¬ x ∈ vis)) := by
        by_cases hxv : x ∈ vis
        · simp [hxv]
        · simp [hxv, hxa]
      rw [hsame]
      cases hq : (decide (¬ x ∈ vis)) with
      | true => simpa using Nat.succ_lt_succ (ih hat)
      | false => simpa using ih hat

theorem unvisited_cons_lt (g : List (String × List String)) (name : String)
    (vis : List String) (hu : name ∈ gUniv g) (hv : name ∉ vis) :
    unvisited g (name :: vis) < unvisited g vis :=
  length_filter_cons_lt (gUniv g) name vis hu hv

theorem mem_gUniv_of_callees (g : List (String × List String)) (name : String)
    (cs : List String) (h : graphCallees g name = some cs) :
    name ∈ gUniv g := by
  induction g with
  | nil => simp [graphCallees] at h
  | cons kv rest ih =>
    obtain ⟨k, v⟩ := kv
    unfold graphCallees at h
    unfold gUniv
    simp only [List.foldr_cons]
    by_cases hk : k = name
    · subst hk
      exact List.mem_cons_self _ _
    · rw [if_neg hk] at h
      exact List.mem_cons_of_mem _ (List.mem_append.mpr (Or.inr (ih h)))

theorem callTreeChildren_suff (g : List (String × List String)) (f indent : Nat)
    (ihf : ∀ (name : String) (ind : Nat) (vis : List String),
      unvisited g vis < f →
      ∃ out vis', callTreeF f g name ind vis = some (out, vis') ∧
        vis <:+ vis' ∧ (vis.Nodup → vis'.Nodup)) :
    ∀ (cs : List String) (out0 : List (String × Nat)) (vis : List String),
      unvisited g vis < f →
      ∃ out vis',
        cs.foldl
          (fun acc c =>
            match acc with
            | none => none
            | some (out, vis) =>
              match callTreeF f g c (indent + 1) vis with
              | none => none
              | some (out1, vis1) => some (out ++ (c, indent) :: out1, vis1))
          (some (out0, vis)) = some (out, vis') ∧
        vis <:+ vis' ∧ (vis.Nodup → vis'.Nodup) := by
  intro cs
  induction cs with
  | nil =>
    intro out0 vis hv
    exact ⟨out0, vis, rfl, List.suffix_refl vis, fun h => h⟩
  | cons c rest ih =>
    intro out0 vis hv
    simp only [List.foldl_cons]
    obtain ⟨out1, vis1, heq1, hsuf1, hnd1⟩ := ihf c (indent + 1) vis hv
    have hv1 : unvisited g vis1 < f :=
      Nat.lt_of_le_of_lt (unvisited_mono g vis vis1 (fun x hx => hsuf1.subset hx)) hv
    obtain ⟨out2, vis2, heq2, hsuf2, hnd2⟩ :=
      ih (out0 ++ (c, indent) :: out1) vis1 hv1
    refine ⟨out2, vis2, ?_, hsuf1.trans hsuf2, fun h => hnd2 (hnd1 h)⟩
    dsimp only
    rw [heq1]
    exact heq2

theorem callTreeF_suff (g : List (String × List String)) :
    ∀ (f : Nat) (name : String) (indent : Nat) (vis : List String),
      unvisited g vis < f →
      ∃ out vis', callTreeF f g name indent vis = some (out, vis') ∧
        vis <:+ vis' ∧ (vis.Nodup → vis'.Nodup) := by
  intro f
  induction f with
  | zero => intro name indent vis hv; omega
  | succ f ih =>
    intro name indent vis hv
    unfold callTreeF
    by_cases hmem : name ∈ vis
    · rw [if_pos hmem]
      exact ⟨[], vis, rfl, List.suffix_refl vis, fun h => h⟩
    · rw [if_neg hmem]
      dsimp only
      cases hcal : graphCallees g name with
      | none =>
        exact ⟨[], name :: vis, rfl, List.suffix_cons name vis,
          fun h => List.nodup_cons.mpr ⟨hmem, h⟩⟩
      | some callees =>
        have hnu : name ∈ gUniv g := mem_gUniv_of_callees g name callees hcal
        have hvlt : unvisited g (name :: vis) < f := by
          have h1 := unvisited_cons_lt g name vis hnu hmem
          omega
        obtain ⟨out, vis', heq, hsuf, hnd⟩ :=
          callTreeChildren_suff g f indent ih (sortedDedup callees) []
            (name :: vis) hvlt
        exact ⟨out, vis', heq, (List.suffix_cons name vis).trans hsuf,
          fun h => hnd (List.nodup_cons.mpr ⟨hmem, h⟩)⟩

/-- **C3**: for every finite call graph — including mutual recursion
(A calls B and B calls A) and self-calls — the call-tree rendering started
at any root completes within recursion depth `|names| + 1` (the fuel bound;
this is the termination argument for the unbounded Python recursion, since
every non-trivial call permanently adds a graph name to the visited set),
and the visited list built by the traversal — which records exactly the
names that were expanded, in expansion order — contains no duplicates: each
program name is expanded at most once per traversal, and a program reached
again via another path is emitted by its parent's loop without being
re-expanded. -/
theorem c3_call_tree_terminates_expands_once
    (g : List (String × List String)) (root : String) :
    ∃ out vis, callTreeF ((gUniv g).length + 1) g root 1 [] = some (out, vis) ∧
      vis.Nodup := by
  have hb : unvisited g [] < (gUniv g).length + 1 := by
    have h1 : unvisited g [] ≤ (gUniv g).length := List.length_filter_le _ _
    omega
  obtain ⟨out, vis, heq, _, hnd⟩ :=
    callTreeF_suff g ((gUniv g).length + 1) root 1 [] hb
  exact ⟨out, vis, heq, hnd List.nodup_nil⟩

end Fanuc
